import Mathlib

/-!
Shallow embedding of the Vasc collaborative file-synchronization core
(`src/collab/state.rs`, `src/collab/host.rs`, `src/collab/snapshot.rs`,
`src/collab/protocol.rs`) together with proofs of the specification's
claims about it.

Conventions: byte strings (`Vec<u8>`, `&[u8]`) are lists of naturals below
256; `u64`/`u32`/`usize` counters are `Nat` (their overflow is unreachable
in the modelled workloads, and where wrapping matters — in the FNV hash —
the arithmetic is taken modulo `2 ^ 64` explicitly).  `HashMap<String,
FileState>` is an association list with first-match lookup; the map update
`entry().or_insert(..)` followed by field assignment replaces the first
binding or appends a fresh one.  Human-readable `error` message strings in
the protocol DTOs are presentational and are not modelled.
-/

namespace Vasc

/-! ### Protocol DTOs (`src/collab/protocol.rs`) -/

def PROTOCOL_VERSION : Nat := 1

/-- A single file entry in the manifest. -/
structure FileEntry where
  path : String
  rev : Nat
  hash : String
deriving DecidableEq

/-- Sent by client to authenticate. -/
structure AuthRequest where
  token : Option String
  protocol_version : Nat
deriving DecidableEq

/-- Sent by host in response to auth (`error` string omitted). -/
structure AuthResponse where
  session_id : Nat
  ok : Bool
deriving DecidableEq

/-- The full manifest of project files. -/
structure Manifest where
  files : List FileEntry
  head_rev : Nat
deriving DecidableEq

/-- Host's response to a change proposal (`error` string omitted). -/
structure ChangeResult where
  path : String
  accepted : Bool
  new_rev : Option Nat
  conflict_rev : Option Nat
  conflict_hash : Option String
deriving DecidableEq

/-- A single broadcasted change event. -/
structure BroadcastEntry where
  path : String
  content : List Nat
  rev : Nat
  hash : String
  from_session : Option Nat
deriving DecidableEq

/-! ### Fingerprint (`hash_content`, `src/collab/state.rs`)

`hash_content` builds a `FnvHasher` (64-bit FNV-1a) and calls
`content.hash(&mut h)` on the `&[u8]` slice.  Rust's `Hash` impl for
slices first feeds the length — `usize::to_ne_bytes`, eight bytes,
little-endian on the supported targets — into `Hasher::write`, then the
content bytes themselves.  The digest is rendered with
`format!("{:016x}", ..)`: sixteen zero-padded lowercase hex digits. -/

def U64 : Nat := 2 ^ 64

def FNV_OFFSET : Nat := 14695981039346656037

def FNV_PRIME : Nat := 1099511628211

/-- One iteration of the loop in `FnvHasher::write`: xor in the byte
(`u64::from(byte)`; `% 256` embeds the `u8` range), then multiply by the
prime with `u64` wrapping. -/
def fnvStep (h b : Nat) : Nat := ((h ^^^ (b % 256)) * FNV_PRIME) % U64

/-- `FnvHasher::write` over a byte slice. -/
def fnvWrite (h : Nat) (bytes : List Nat) : Nat := bytes.foldl fnvStep h

/-- The eight little-endian bytes of `(n as usize).to_ne_bytes()`. -/
def lenBytes (n : Nat) : List Nat := (List.range 8).map fun i => n / 256 ^ i % 256

/-- The 64-bit digest produced by `content.hash(&mut h); h.finish()`:
length prefix first, then the content bytes. -/
def hashU64 (content : List Nat) : Nat :=
  fnvWrite (fnvWrite FNV_OFFSET (lenBytes content.length)) content

/-- Lowercase hex digit for a value below 16, as `{:x}` renders it. -/
def hexDigitChar (n : Nat) : Char :=
  if n < 10 then Char.ofNat (48 + n) else Char.ofNat (87 + n)

/-- Rendering of `format!("{:016x}", n)` for `n < 2 ^ 64`: sixteen
zero-padded lowercase hex digits, most significant first. -/
def toHex16 (n : Nat) : String :=
  String.mk ((List.range 16).map fun i => hexDigitChar (n / 16 ^ (15 - i) % 16))

/-- `hash_content` from `src/collab/state.rs`. -/
def hash_content (content : List Nat) : String := toHex16 (hashU64 content)

/-! ### Authoritative state (`src/collab/state.rs`) -/

/-- Per-file state tracked by the host. -/
structure FileState where
  rev : Nat
  hash : String
  content : List Nat
deriving DecidableEq

/-- A logged change for client polling. -/
structure ChangeRecord where
  global_seq : Nat
  entry : BroadcastEntry
deriving DecidableEq

/-- The authoritative collaboration state held by the host. -/
structure CollabState where
  files : List (String × FileState)
  global_seq : Nat
  change_log : List ChangeRecord
  sessions : List Nat
  next_session_id : Nat
deriving DecidableEq

/-- `HashMap::get`: first binding for the key, if any. -/
def getFile : List (String × FileState) → String → Option FileState
  | [], _ => none
  | (q, fs) :: rest, p => if q = p then some fs else getFile rest p

/-- `HashMap` update as performed by `entry().or_insert(..)` plus the
subsequent field assignments: replace the first binding for the key, or
append a fresh one. -/
def setFile : List (String × FileState) → String → FileState → List (String × FileState)
  | [], p, fs => [(p, fs)]
  | (q, g) :: rest, p, fs => if q = p then (p, fs) :: rest else (q, g) :: setFile rest p fs

/-- `CollabState::new`. -/
def CollabState.new : CollabState :=
  { files := [], global_seq := 0, change_log := [], sessions := [], next_session_id := 1 }

/-- `CollabState::add_session`: allocate the next id, advance the counter,
register the session, return the id. -/
def CollabState.add_session (s : CollabState) : CollabState × Nat :=
  ({ s with sessions := s.sessions ++ [s.next_session_id],
            next_session_id := s.next_session_id + 1 },
   s.next_session_id)

/-- `CollabState::remove_session`: retain all other ids. -/
def CollabState.remove_session (s : CollabState) (id : Nat) : CollabState :=
  { s with sessions := s.sessions.filter fun x => decide (x ≠ id) }

/-- `CollabState::apply_change`: bump `global_seq`, create the file state
(`rev` 0 then `+= 1`) or bump the existing one, set hash and content,
append the change record, return the new `FileEntry`. -/
def CollabState.apply_change (s : CollabState) (path : String) (content : List Nat)
    (from_session : Option Nat) : CollabState × FileEntry :=
  let seq := s.global_seq + 1
  let hash := hash_content content
  let file_rev :=
    match getFile s.files path with
    | none => 1
    | some fs => fs.rev + 1
  let record : ChangeRecord :=
    { global_seq := seq,
      entry := { path := path, content := content, rev := file_rev, hash := hash,
                 from_session := from_session } }
  ({ s with files := setFile s.files path { rev := file_rev, hash := hash, content := content },
            global_seq := seq,
            change_log := s.change_log ++ [record] },
   { path := path, rev := file_rev, hash := hash })

/-- `CollabState::changes_since`: all records with `global_seq > since_rev`,
in log order, paired with the current `global_seq`. -/
def CollabState.changes_since (s : CollabState) (since_rev : Nat) : List BroadcastEntry × Nat :=
  ((s.change_log.filter fun r => decide (since_rev < r.global_seq)).map (·.entry),
   s.global_seq)

/-- Current revision of a path as `/propose` computes it:
`files.get(path).map(|f| f.rev).unwrap_or(0)`. -/
def fileRev (s : CollabState) (p : String) : Nat :=
  match getFile s.files p with
  | none => 0
  | some fs => fs.rev

/-- The sub-log of records for one path, in log order. -/
def recordsFor (s : CollabState) (p : String) : List ChangeRecord :=
  s.change_log.filter fun r => decide (r.entry.path = p)

/-! ### Mutation sequences over the authoritative state -/

/-- One call into the authoritative state's mutators. -/
inductive Step where
  | applyChange (path : String) (content : List Nat) (from_session : Option Nat)
  | addSession
  | removeSession (id : Nat)
deriving DecidableEq

/-- Execute one mutator call. -/
def exec (s : CollabState) : Step → CollabState
  | .applyChange p c fs => (s.apply_change p c fs).1
  | .addSession => s.add_session.1
  | .removeSession id => s.remove_session id

/-- Execute a sequence of mutator calls from a given state. -/
def runFrom (s : CollabState) (ops : List Step) : CollabState := ops.foldl exec s

/-- Execute a sequence of mutator calls from `CollabState::new`. -/
def run (ops : List Step) : CollabState := runFrom CollabState.new ops

/-- The session ids handed out by the `addSession` calls of a sequence, in
call order. -/
def sessionIdsFrom : CollabState → List Step → List Nat
  | _, [] => []
  | s, op :: rest =>
    match op with
    | .addSession => s.next_session_id :: sessionIdsFrom (exec s op) rest
    | _ => sessionIdsFrom (exec s op) rest

/-- Number of `addSession` calls in a sequence. -/
def numAdds : List Step → Nat
  | [] => 0
  | op :: rest =>
    match op with
    | .addSession => numAdds rest + 1
    | _ => numAdds rest

/-! ### Host endpoints (`src/collab/host.rs`)

Each handler locks the state, reads or mutates it, and replies.  The
handlers are embedded as pure functions from the state (and the request)
to the successor state, the HTTP status code, and the response body.  The
disk write that `/propose` performs after releasing the lock (and its 500
response on I/O failure, which leaves the already-committed in-memory
state in place) is outside the state model; its destination path is
embedded separately as `proposeDest`. -/

/-- `check_auth`: no configured token accepts anything; a configured token
requires an exactly matching client token. -/
def check_auth (token expected : Option String) : Bool :=
  match token, expected with
  | _, none => true
  | some t, some e => decide (t = e)
  | none, some _ => false

/-- POST `/auth`: version check, then token check, then `add_session`. -/
def auth (serverToken : Option String) (s : CollabState) (req : AuthRequest) :
    CollabState × Nat × AuthResponse :=
  if req.protocol_version ≠ PROTOCOL_VERSION then
    (s, 400, { session_id := 0, ok := false })
  else if ¬ check_auth req.token serverToken then
    (s, 401, { session_id := 0, ok := false })
  else
    let r := s.add_session
    (r.1, 200, { session_id := r.2, ok := true })

/-- POST `/propose`: session check (401), then base-revision check (409),
then `apply_change` and a 200 acceptance. -/
def propose (s : CollabState) (session_id : Nat) (path : String) (base_rev : Nat)
    (content : List Nat) : CollabState × Nat × ChangeResult :=
  if session_id ∉ s.sessions then
    (s, 401, { path := path, accepted := false, new_rev := none,
               conflict_rev := none, conflict_hash := none })
  else
    let current_rev := fileRev s path
    if base_rev ≠ current_rev then
      (s, 409, { path := path, accepted := false, new_rev := none,
                 conflict_rev := some current_rev,
                 conflict_hash := (getFile s.files path).map (·.hash) })
    else
      let r := s.apply_change path content (some session_id)
      (r.1, 200, { path := path, accepted := true, new_rev := some r.2.rev,
                   conflict_rev := none, conflict_hash := none })

/-- Comparison `a.path.cmp(&b.path)` used by both manifest producers. -/
def pathLe (a b : FileEntry) : Bool := decide (a.path ≤ b.path)

/-- Stable sort by path (`sort_by(|a, b| a.path.cmp(&b.path))`). -/
def sortByPath (l : List FileEntry) : List FileEntry := l.mergeSort pathLe

/-- GET `/manifest`: snapshot the files map as entries, sort by path, pair
with the current `global_seq` as `head_rev`. -/
def manifest (s : CollabState) : Manifest :=
  { files := sortByPath (s.files.map fun pf => { path := pf.1, rev := pf.2.rev, hash := pf.2.hash }),
    head_rev := s.global_seq }

/-- On-disk destination computed by `/propose`:
`project_dir.join(path.replace('/', MAIN_SEPARATOR_STR))`.  On the Unix
targets the separator replacement is the identity and `Path::join` with an
absolute right-hand side discards the left-hand side. -/
def proposeDest (projectDir path : String) : String :=
  if path.data.head? = some '/' then path else projectDir ++ "/" ++ path

/-! ### Host filesystem watcher (`src/collab/host.rs`) -/

/-- `WATCH_IGNORE`: basenames the watcher's scan skips. -/
def WATCH_IGNORE : List String := [".git", ".vasc-collab-backup", "node_modules"]

/-- Whether `scan_for_changes` skips a directory entry of this basename. -/
def watchSkips (name : String) : Bool := WATCH_IGNORE.contains name

/-- Per-file tail of `scan_for_changes` once a changed mtime was seen: read
the content, compute the fingerprint, and unless the stored hash for the
path already equals it, `apply_change(path, content, None)`.  The
watcher-private mtime cache does not touch the authoritative state and is
not part of it. -/
def watcherIngest (s : CollabState) (rel : String) (content : List Nat) : CollabState :=
  let new_hash := hash_content content
  let already_current :=
    match getFile s.files rel with
    | none => false
    | some fs => decide (fs.hash = new_hash)
  if already_current then s else (s.apply_change rel content none).1

/-! ### Snapshot / walker (`src/collab/snapshot.rs`)

The directory tree on disk is abstracted as a list of named entries; the
walk visits them in the given order, as `read_dir` yields them.  The
relative path of a file is its accumulated forward-slash prefix plus its
basename (on Unix `strip_prefix` plus the backslash replacement produce
exactly this form). -/

/-- `IGNORE_PATTERNS`: basenames skipped when building the manifest. -/
def IGNORE_PATTERNS : List String :=
  [".git", ".vasc-collab-backup", "node_modules", ".DS_Store", "Thumbs.db"]

/-- Whether the snapshot walker skips a directory entry of this basename. -/
def snapshotSkips (name : String) : Bool := IGNORE_PATTERNS.contains name

/-- An abstract directory entry: a regular file with content, or a
subdirectory with its own entries. -/
inductive FsEntry where
  | file (name : String) (content : List Nat)
  | dir (name : String) (entries : List FsEntry)

mutual

/-- `walk_dir` over the entries of one directory, in order. -/
def walkDir (pre : String) (entries : List FsEntry) (s : CollabState)
    (acc : List FileEntry) : CollabState × List FileEntry :=
  match entries with
  | [] => (s, acc)
  | e :: rest =>
    let r := walkEntry pre e s acc
    walkDir pre rest r.1 r.2

/-- One `read_dir` entry inside `walk_dir`: skip ignored basenames, recurse
into directories, and register files via `apply_change(.., None)`. -/
def walkEntry (pre : String) (e : FsEntry) (s : CollabState)
    (acc : List FileEntry) : CollabState × List FileEntry :=
  match e with
  | .file name content =>
    if snapshotSkips name then (s, acc)
    else
      let r := s.apply_change (pre ++ name) content none
      (r.1, acc ++ [r.2])
  | .dir name sub =>
    if snapshotSkips name then (s, acc)
    else walkDir (pre ++ name ++ "/") sub s acc

end

/-- `build_manifest_from_dir`: walk the tree into the state, then sort the
collected entries by path and pair them with the final `global_seq`. -/
def build_manifest_from_dir (tree : List FsEntry) (s : CollabState) :
    CollabState × Manifest :=
  let r := walkDir "" tree s []
  (r.1, { files := sortByPath r.2, head_rev := r.1.global_seq })

/-- Lowercase hexadecimal digits, the alphabet of hash strings. -/
def isLowerHexDigit (c : Char) : Bool :=
  ("0123456789abcdef".data).contains c

/-! ### The global invariants of §3 of the specification -/

/-- Invariants 1–6 of §3, as a predicate on the authoritative state (the
lifetime-uniqueness half of invariant 6 is stated over runs, via
`sessionIdsFrom`). -/
structure Inv (s : CollabState) : Prop where
  hashOk : ∀ pf ∈ s.files, pf.2.hash = hash_content pf.2.content
  seqLen : s.global_seq = s.change_log.length
  seqContig : s.change_log.map (·.global_seq) = List.range' 1 s.change_log.length
  revsOk : ∀ p, (recordsFor s p).map (·.entry.rev) = List.range' 1 (fileRev s p)
  lastOk : ∀ p fs, getFile s.files p = some fs →
    ∃ r, (recordsFor s p).getLast? = some r ∧
      r.entry.rev = fs.rev ∧ r.entry.hash = fs.hash ∧ r.entry.content = fs.content
  sessLt : ∀ id ∈ s.sessions, id < s.next_session_id
  sessNodup : s.sessions.Nodup

/-! ## Helper lemmas -/

/-- Lookup after update: the updated key maps to the new value, every other
key is untouched. -/
theorem getFile_setFile (l : List (String × FileState)) (p q : String) (v : FileState) :
    getFile (setFile l p v) q = if p = q then some v else getFile l q := by
  induction l with
  | nil =>
    by_cases h : p = q <;> simp [setFile, getFile, h]
  | cons hd tl ih =>
    obtain ⟨k, fs⟩ := hd
    by_cases hk : k = p
    · subst hk
      by_cases hq : k = q <;> simp [setFile, getFile, hq]
    · by_cases hq : k = q
      · have hpq : p ≠ q := fun h => hk (hq.trans h.symm)
        have hqp : q ≠ p := fun h => hk (hq.trans h)
        simp [setFile, hk, getFile, hq, hpq, hqp]
      · simp [setFile, hk, getFile, hq, ih]

/-- Every binding after an update is the new binding or an old one. -/
theorem mem_setFile {l : List (String × FileState)} {p : String} {v : FileState}
    {x : String × FileState} (hx : x ∈ setFile l p v) : x = (p, v) ∨ x ∈ l := by
  induction l with
  | nil => simpa [setFile] using hx
  | cons hd tl ih =>
    obtain ⟨k, fs⟩ := hd
    by_cases hk : k = p
    · subst hk
      rcases (by simpa [setFile] using hx : x = (k, v) ∨ x ∈ tl) with h | h
      · exact Or.inl h
      · exact Or.inr (List.mem_cons_of_mem _ h)
    · rcases (by simpa [setFile, hk] using hx : x = (k, fs) ∨ x ∈ setFile tl p v) with h | h
      · exact Or.inr (by simp [h])
      · rcases ih h with h' | h'
        · exact Or.inl h'
        · exact Or.inr (List.mem_cons_of_mem _ h')

/-- Components of the state returned by `apply_change`. -/
theorem apply_change_fst (s : CollabState) (p : String) (c : List Nat) (f : Option Nat) :
    (s.apply_change p c f).1 =
      { s with
        files := setFile s.files p
          { rev := fileRev s p + 1, hash := hash_content c, content := c },
        global_seq := s.global_seq + 1,
        change_log := s.change_log ++
          [{ global_seq := s.global_seq + 1,
             entry := { path := p, content := c, rev := fileRev s p + 1,
                        hash := hash_content c, from_session := f } }] } := by
  unfold CollabState.apply_change fileRev
  cases h : getFile s.files p <;> simp [h]

/-- The `FileEntry` returned by `apply_change`. -/
theorem apply_change_snd (s : CollabState) (p : String) (c : List Nat) (f : Option Nat) :
    (s.apply_change p c f).2 =
      { path := p, rev := fileRev s p + 1, hash := hash_content c } := by
  unfold CollabState.apply_change fileRev
  cases h : getFile s.files p <;> simp [h]

/-- Current revision after `apply_change`: the changed path advanced by
one, every other path kept its revision. -/
theorem fileRev_applyChange (s : CollabState) (p : String) (c : List Nat)
    (f : Option Nat) (q : String) :
    fileRev (s.apply_change p c f).1 q =
      if p = q then fileRev s p + 1 else fileRev s q := by
  unfold fileRev
  rw [apply_change_fst]
  simp only [getFile_setFile]
  by_cases h : p = q <;> simp [h, fileRev]

/-- Per-path sub-log after `apply_change`: the changed path gained exactly
the new record at the end, every other path's sub-log is untouched. -/
theorem recordsFor_applyChange (s : CollabState) (p : String) (c : List Nat)
    (f : Option Nat) (q : String) :
    recordsFor (s.apply_change p c f).1 q =
      recordsFor s q ++
        (if p = q then
          [{ global_seq := s.global_seq + 1,
             entry := { path := p, content := c, rev := fileRev s p + 1,
                        hash := hash_content c, from_session := f } }]
        else []) := by
  unfold recordsFor
  rw [apply_change_fst]
  simp only [List.filter_append]
  by_cases h : p = q <;> simp [h]

/-- `apply_change` preserves the global invariants. -/
theorem inv_applyChange {s : CollabState} (hs : Inv s) (p : String) (c : List Nat)
    (f : Option Nat) : Inv (s.apply_change p c f).1 := by
  constructor
  · intro pf hpf
    rw [apply_change_fst] at hpf
    simp only at hpf
    rcases mem_setFile hpf with h | h
    · rw [h]
    · exact hs.hashOk pf h
  · rw [apply_change_fst]
    simp [hs.seqLen]
  · rw [apply_change_fst]
    simp only [List.map_append, List.map_cons, List.map_nil, List.length_append,
      List.length_cons, List.length_nil]
    rw [List.range'_concat]
    simp [hs.seqContig, hs.seqLen, Nat.add_comm]
  · intro q
    rw [recordsFor_applyChange, fileRev_applyChange]
    by_cases h : p = q
    · rw [if_pos h, if_pos h, List.map_append, hs.revsOk q, List.range'_concat]
      simp [h, Nat.add_comm]
    · rw [if_neg h, if_neg h]
      simp [hs.revsOk q]
  · intro q fs hq
    rw [apply_change_fst] at hq
    simp only at hq
    rw [getFile_setFile] at hq
    by_cases h : p = q
    · rw [if_pos h] at hq
      have hfs : fs = { rev := fileRev s p + 1, hash := hash_content c, content := c } :=
        (Option.some.inj hq).symm
      subst hfs
      have hlast : (recordsFor (s.apply_change p c f).1 q).getLast? =
          some { global_seq := s.global_seq + 1,
                 entry := { path := p, content := c, rev := fileRev s p + 1,
                            hash := hash_content c, from_session := f } } := by
        rw [recordsFor_applyChange, if_pos h]
        exact List.getLast?_concat _
      exact ⟨_, hlast, rfl, rfl, rfl⟩
    · rw [if_neg h] at hq
      obtain ⟨r, hr, h1, h2, h3⟩ := hs.lastOk q fs hq
      refine ⟨r, ?_, h1, h2, h3⟩
      rw [recordsFor_applyChange, if_neg h]
      simpa using hr
  · intro id hid
    rw [apply_change_fst] at hid
    exact hs.sessLt id hid
  · rw [apply_change_fst]
    exact hs.sessNodup

/-- `add_session` preserves the global invariants. -/
theorem inv_addSession {s : CollabState} (hs : Inv s) : Inv s.add_session.1 := by
  constructor
  · exact hs.hashOk
  · exact hs.seqLen
  · exact hs.seqContig
  · exact hs.revsOk
  · exact hs.lastOk
  · intro id hid
    simp only [CollabState.add_session, List.mem_append, List.mem_singleton] at hid
    rcases hid with h | h
    · exact Nat.lt_succ_of_lt (hs.sessLt id h)
    · simp [CollabState.add_session, h]
  · simp only [CollabState.add_session]
    rw [List.nodup_append]
    refine ⟨hs.sessNodup, List.nodup_singleton _, ?_⟩
    intro x hx hx'
    have hlt := hs.sessLt x hx
    rw [List.mem_singleton] at hx'
    omega

/-- `remove_session` preserves the global invariants. -/
theorem inv_removeSession {s : CollabState} (hs : Inv s) (id : Nat) :
    Inv (s.remove_session id) := by
  constructor
  · exact hs.hashOk
  · exact hs.seqLen
  · exact hs.seqContig
  · exact hs.revsOk
  · exact hs.lastOk
  · intro x hx
    simp only [CollabState.remove_session, List.mem_filter] at hx
    exact hs.sessLt x hx.1
  · exact hs.sessNodup.filter _

/-- The new state satisfies the global invariants. -/
theorem inv_new : Inv CollabState.new := by
  refine ⟨?_, rfl, rfl, ?_, ?_, ?_, List.nodup_nil⟩
  · intro pf hpf
    simp [CollabState.new] at hpf
  · intro p
    simp [recordsFor, fileRev, CollabState.new, getFile]
  · intro p fs hfs
    simp [CollabState.new, getFile] at hfs
  · intro id hid
    simp [CollabState.new] at hid

/-- Every mutator call preserves the global invariants. -/
theorem inv_exec {s : CollabState} (hs : Inv s) (op : Step) : Inv (exec s op) := by
  cases op with
  | applyChange p c f => exact inv_applyChange hs p c f
  | addSession => exact inv_addSession hs
  | removeSession id => exact inv_removeSession hs id

/-- Every run from an invariant-satisfying state keeps the invariants. -/
theorem inv_runFrom {s : CollabState} (hs : Inv s) (ops : List Step) :
    Inv (runFrom s ops) := by
  induction ops generalizing s with
  | nil => exact hs
  | cons op rest ih => exact ih (inv_exec hs op)

/-- Every state reachable from `CollabState::new` satisfies the global
invariants. -/
theorem inv_run (ops : List Step) : Inv (run ops) := inv_runFrom inv_new ops

/-- The ids handed out by `addSession` calls of a run are the consecutive
block starting at the state's `next_session_id`. -/
theorem sessionIdsFrom_eq (ops : List Step) : ∀ s : CollabState,
    sessionIdsFrom s ops = List.range' s.next_session_id (numAdds ops) := by
  induction ops with
  | nil => intro s; rfl
  | cons op rest ih =>
    intro s
    cases op with
    | applyChange p c f => exact ih (exec s (.applyChange p c f))
    | addSession =>
      show s.next_session_id :: sessionIdsFrom (exec s .addSession) rest
          = List.range' s.next_session_id (numAdds rest + 1)
      rw [List.range'_succ, ih]
      rfl
    | removeSession id => exact ih (exec s (.removeSession id))

/-- The last element of a nonempty arithmetic block. -/
theorem getLast?_range' (s n : Nat) (h : 0 < n) :
    (List.range' s n).getLast? = some (s + n - 1) := by
  obtain ⟨m, rfl⟩ : ∃ m, n = m + 1 := ⟨n - 1, by omega⟩
  rw [List.range'_concat, List.getLast?_concat]
  congr 1
  omega

/-- Every mutator call only appends to the change log. -/
theorem exec_change_log (s : CollabState) (op : Step) :
    ∃ d, (exec s op).change_log = s.change_log ++ d := by
  cases op with
  | applyChange p c f =>
    refine ⟨[{ global_seq := s.global_seq + 1,
               entry := { path := p, content := c, rev := fileRev s p + 1,
                          hash := hash_content c, from_session := f } }], ?_⟩
    show (s.apply_change p c f).1.change_log = _
    rw [apply_change_fst]
  | addSession => exact ⟨[], by simp [exec, CollabState.add_session]⟩
  | removeSession id => exact ⟨[], by simp [exec, CollabState.remove_session]⟩

/-- Every run only appends to the change log. -/
theorem runFrom_change_log (ops : List Step) : ∀ s : CollabState,
    ∃ t, (runFrom s ops).change_log = s.change_log ++ t := by
  induction ops with
  | nil => intro s; exact ⟨[], by simp [runFrom]⟩
  | cons op rest ih =>
    intro s
    obtain ⟨d, hd⟩ := exec_change_log s op
    obtain ⟨t, ht⟩ := ih (exec s op)
    refine ⟨d ++ t, ?_⟩
    show (runFrom (exec s op) rest).change_log = _
    rw [ht, hd, List.append_assoc]

/-- Filtering a log whose sequence numbers form the block starting at `s0`
for the records above `since` is dropping a prefix. -/
theorem filter_gt_eq_drop (l : List ChangeRecord) : ∀ s0 since : Nat,
    l.map (·.global_seq) = List.range' s0 l.length →
    (l.filter fun r => decide (since < r.global_seq)) = l.drop (since + 1 - s0) := by
  induction l with
  | nil => intro s0 since _; simp
  | cons r rest ih =>
    intro s0 since h
    rw [List.length_cons, List.range'_succ] at h
    simp only [List.map_cons, List.cons.injEq] at h
    obtain ⟨h1, h2⟩ := h
    rw [List.filter_cons]
    by_cases hs : since < r.global_seq
    · have e0 : since + 1 - s0 = 0 := by omega
      have e1 : since + 1 - (s0 + 1) = 0 := by omega
      rw [if_pos (by simpa using hs), ih (s0 + 1) since h2, e0, e1]
      simp
    · have e0 : since + 1 - s0 = (since + 1 - (s0 + 1)) + 1 := by omega
      rw [if_neg (by simpa using hs), ih (s0 + 1) since h2, e0]
      simp

/-- On any state whose log is contiguous from 1, `changes_since` is the
mapped suffix of the log past the first `since` records. -/
theorem changes_since_eq_drop {s : CollabState} (hs : Inv s) (since : Nat) :
    s.changes_since since = ((s.change_log.drop since).map (·.entry), s.global_seq) := by
  unfold CollabState.changes_since
  rw [filter_gt_eq_drop s.change_log 1 since hs.seqContig]
  simp

/-! ## The claims -/

/-- C1: after any sequence of mutator calls starting from
`CollabState::new`, the global invariants 1–6 of §3 hold: stored hashes are
fingerprints of the stored content; the change log's `global_seq` values
are strictly increasing and contiguous from 1; `global_seq` equals the
log's length and the last record's `global_seq`; per path the logged `rev`
values form the sequence 1, 2, 3, …; the most recent record of a path
agrees with its files entry in `rev`, `hash` and `content`; and the
session ids handed out by `add_session` are unique over the run. -/
theorem C1_global_invariants (ops : List Step) :
    (∀ pf ∈ (run ops).files, pf.2.hash = hash_content pf.2.content) ∧
    ((run ops).change_log.map (·.global_seq) =
      List.range' 1 (run ops).change_log.length) ∧
    ((run ops).global_seq = (run ops).change_log.length) ∧
    ((run ops).change_log ≠ [] →
      ((run ops).change_log.getLast?).map (·.global_seq) = some (run ops).global_seq) ∧
    (∀ p, (recordsFor (run ops) p).map (·.entry.rev) =
      List.range' 1 (fileRev (run ops) p)) ∧
    (∀ p fs, getFile (run ops).files p = some fs →
      ∃ r, (recordsFor (run ops) p).getLast? = some r ∧
        r.entry.rev = fs.rev ∧ r.entry.hash = fs.hash ∧ r.entry.content = fs.content) ∧
    (sessionIdsFrom CollabState.new ops).Nodup := by
  have h := inv_run ops
  refine ⟨h.hashOk, h.seqContig, h.seqLen, ?_, h.revsOk, h.lastOk, by
    rw [sessionIdsFrom_eq]; exact List.nodup_range' _ _⟩
  intro hne
  have hlen : 0 < (run ops).change_log.length := List.length_pos.mpr hne
  have hmap := congrArg List.getLast? h.seqContig
  rw [List.getLast?_map, getLast?_range' 1 _ hlen] at hmap
  rw [hmap, h.seqLen]
  congr 1
  omega

/-- C1 witness: a concrete three-call run on which the conjuncts with
embedded hypotheses are discharged at concrete inputs. -/
theorem C1_global_invariants_witness :
    ((run [Step.addSession, Step.applyChange "a.lua" [120] (some 1),
           Step.applyChange "a.lua" [121] (some 1)]).change_log ≠ []) ∧
    (((run [Step.addSession, Step.applyChange "a.lua" [120] (some 1),
            Step.applyChange "a.lua" [121] (some 1)]).change_log.getLast?).map
        (·.global_seq) =
      some (run [Step.addSession, Step.applyChange "a.lua" [120] (some 1),
                 Step.applyChange "a.lua" [121] (some 1)]).global_seq) := by
  refine ⟨by decide, ?_⟩
  exact (C1_global_invariants [Step.addSession, Step.applyChange "a.lua" [120] (some 1),
    Step.applyChange "a.lua" [121] (some 1)]).2.2.2.1 (by decide)

/-- C2: one `apply_change(path, content, from_session)` call bumps
`global_seq` by exactly one; the path's file state afterwards carries rev
`fileRev + 1` (so rev 1 when the path was absent, the old rev plus one when
present), the fingerprint of the content, and the content; exactly one
record is appended carrying the new `global_seq`, path, content, new rev,
new hash and `from_session`; the returned entry is `(path, new rev, new
hash)`; and no other file entry changes. -/
theorem C2_apply_change_correct (s : CollabState) (path : String) (content : List Nat)
    (from_session : Option Nat) :
    ((s.apply_change path content from_session).1.global_seq = s.global_seq + 1) ∧
    (getFile (s.apply_change path content from_session).1.files path =
      some { rev := fileRev s path + 1, hash := hash_content content,
             content := content }) ∧
    (getFile s.files path = none → fileRev s path + 1 = 1) ∧
    (∀ fs, getFile s.files path = some fs → fileRev s path + 1 = fs.rev + 1) ∧
    ((s.apply_change path content from_session).1.change_log =
      s.change_log ++
        [{ global_seq := s.global_seq + 1,
           entry := { path := path, content := content, rev := fileRev s path + 1,
                      hash := hash_content content, from_session := from_session } }]) ∧
    ((s.apply_change path content from_session).2 =
      { path := path, rev := fileRev s path + 1, hash := hash_content content }) ∧
    (∀ q, q ≠ path →
      getFile (s.apply_change path content from_session).1.files q =
        getFile s.files q) := by
  refine ⟨?_, ?_, ?_, ?_, ?_, apply_change_snd s path content from_session, ?_⟩
  · rw [apply_change_fst]
  · rw [apply_change_fst]
    simp only
    rw [getFile_setFile, if_pos rfl]
  · intro h
    unfold fileRev
    rw [h]
  · intro fs h
    unfold fileRev
    rw [h]
  · rw [apply_change_fst]
  · intro q hq
    rw [apply_change_fst]
    simp only
    rw [getFile_setFile, if_neg (fun h => hq h.symm)]

/-- C2 witness: the theorem applied to a concrete state holding `a.lua`,
with the absent-path branch discharged for `b.lua` and the present-path
branch for `a.lua`. -/
theorem C2_apply_change_witness :
    (getFile (run [Step.applyChange "a.lua" [120] none]).files "b.lua" = none) ∧
    (fileRev (run [Step.applyChange "a.lua" [120] none]) "b.lua" + 1 = 1) ∧
    (getFile (run [Step.applyChange "a.lua" [120] none]).files "a.lua" =
      some { rev := 1, hash := hash_content [120], content := [120] }) ∧
    (fileRev (run [Step.applyChange "a.lua" [120] none]) "a.lua" + 1 = 1 + 1) ∧
    (((run [Step.applyChange "a.lua" [120] none]).apply_change "b.lua" [121]
        (some 1)).1.global_seq = 2) ∧
    (getFile ((run [Step.applyChange "a.lua" [120] none]).apply_change "b.lua" [121]
        (some 1)).1.files "a.lua" =
      some { rev := 1, hash := hash_content [120], content := [120] }) := by
  have habs : getFile (run [Step.applyChange "a.lua" [120] none]).files "b.lua" = none := by
    rfl
  have hpres : getFile (run [Step.applyChange "a.lua" [120] none]).files "a.lua" =
      some { rev := 1, hash := hash_content [120], content := [120] } := by
    rfl
  have h := C2_apply_change_correct (run [Step.applyChange "a.lua" [120] none])
    "b.lua" [121] (some 1)
  refine ⟨habs, h.2.2.1 habs, hpres, ?_, h.1, ?_⟩
  · have h' := C2_apply_change_correct (run [Step.applyChange "a.lua" [120] none])
      "a.lua" [121] (some 1)
    exact h'.2.2.2.1 _ hpres
  · rw [h.2.2.2.2.2.2 "a.lua" (by decide)]
    exact hpres

/-- C3: on every reachable state, `changes_since(since)` with
`since ≤ global_seq` is exactly the mapped suffix of the change log past
its first `since` records, with `head` the current `global_seq`; at
`since = global_seq` the batch is empty with `head = since`; and a poll at
`since` followed, after further mutations, by a poll at the previously
returned head together return every record after `since` exactly once and
in order. -/
theorem C3_changes_since_suffix (ops more : List Step) (since : Nat)
    (h : since ≤ (run ops).global_seq) :
    ((run ops).changes_since since =
      (((run ops).change_log.drop since).map (·.entry), (run ops).global_seq)) ∧
    ((run ops).changes_since (run ops).global_seq = ([], (run ops).global_seq)) ∧
    (((run (ops ++ more)).changes_since since).1 =
      ((run ops).changes_since since).1 ++
        ((run (ops ++ more)).changes_since (run ops).global_seq).1) := by
  have h1 := inv_run ops
  have h2 := inv_run (ops ++ more)
  obtain ⟨t, ht⟩ : ∃ t, (run (ops ++ more)).change_log = (run ops).change_log ++ t := by
    have hr : run (ops ++ more) = runFrom (run ops) more := by
      unfold run runFrom
      rw [List.foldl_append]
    rw [hr]
    exact runFrom_change_log more (run ops)
  have hle : since ≤ (run ops).change_log.length := by
    rw [← h1.seqLen]; exact h
  refine ⟨changes_since_eq_drop h1 since, ?_, ?_⟩
  · rw [changes_since_eq_drop h1]
    simp [h1.seqLen, List.drop_length]
  · rw [changes_since_eq_drop h2, changes_since_eq_drop h1, changes_since_eq_drop h2]
    dsimp only
    rw [ht, h1.seqLen, List.drop_left, List.drop_append_eq_append_drop,
        Nat.sub_eq_zero_of_le hle, List.drop_zero, List.map_append]

/-- C4: `/propose` rejects an unknown session with 401 leaving the state
unchanged; with a known session but a `base_rev` differing from the path's
current revision it rejects with 409, reporting `conflict_rev` as the
current revision and `conflict_hash` as the stored file's hash, leaving
the state unchanged; otherwise it applies the change attributed to the
proposing session and reports 200 with `accepted` and the new revision. -/
theorem C4_propose_decision (s : CollabState) (session_id : Nat) (path : String)
    (base_rev : Nat) (content : List Nat) :
    (session_id ∉ s.sessions →
      propose s session_id path base_rev content =
        (s, 401, { path := path, accepted := false, new_rev := none,
                   conflict_rev := none, conflict_hash := none })) ∧
    (session_id ∈ s.sessions → base_rev ≠ fileRev s path →
      propose s session_id path base_rev content =
        (s, 409, { path := path, accepted := false, new_rev := none,
                   conflict_rev := some (fileRev s path),
                   conflict_hash := (getFile s.files path).map (·.hash) })) ∧
    (session_id ∈ s.sessions → base_rev = fileRev s path →
      propose s session_id path base_rev content =
        ((s.apply_change path content (some session_id)).1, 200,
         { path := path, accepted := true, new_rev := some (fileRev s path + 1),
           conflict_rev := none, conflict_hash := none })) := by
  refine ⟨?_, ?_, ?_⟩
  · intro hns
    simp [propose, hns]
  · intro hs hne
    simp [propose, hs, hne]
  · intro hs heq
    simp [propose, hs, heq, apply_change_snd]

/-- C4 witness: on a state with session 1 and `a.lua` at revision 1, the
three branches are exercised at concrete inputs: unknown session 2, stale
`base_rev = 0`, and matching `base_rev = 1`. -/
theorem C4_propose_witness :
    ((2 : Nat) ∉ (run [Step.addSession,
        Step.applyChange "a.lua" [120] (some 1)]).sessions) ∧
    (propose (run [Step.addSession, Step.applyChange "a.lua" [120] (some 1)])
        2 "a.lua" 1 [9] =
      (run [Step.addSession, Step.applyChange "a.lua" [120] (some 1)], 401,
       { path := "a.lua", accepted := false, new_rev := none,
         conflict_rev := none, conflict_hash := none })) ∧
    ((1 : Nat) ∈ (run [Step.addSession,
        Step.applyChange "a.lua" [120] (some 1)]).sessions) ∧
    ((0 : Nat) ≠ fileRev (run [Step.addSession,
        Step.applyChange "a.lua" [120] (some 1)]) "a.lua") ∧
    (propose (run [Step.addSession, Step.applyChange "a.lua" [120] (some 1)])
        1 "a.lua" 0 [9] =
      (run [Step.addSession, Step.applyChange "a.lua" [120] (some 1)], 409,
       { path := "a.lua", accepted := false, new_rev := none,
         conflict_rev := some 1, conflict_hash := some (hash_content [120]) })) ∧
    ((1 : Nat) = fileRev (run [Step.addSession,
        Step.applyChange "a.lua" [120] (some 1)]) "a.lua") ∧
    (propose (run [Step.addSession, Step.applyChange "a.lua" [120] (some 1)])
        1 "a.lua" 1 [9] =
      (((run [Step.addSession, Step.applyChange "a.lua" [120] (some 1)]).apply_change
          "a.lua" [9] (some 1)).1, 200,
       { path := "a.lua", accepted := true, new_rev := some 2,
         conflict_rev := none, conflict_hash := none })) := by
  have h := C4_propose_decision
    (run [Step.addSession, Step.applyChange "a.lua" [120] (some 1)]) 2 "a.lua" 1 [9]
  have h' := C4_propose_decision
    (run [Step.addSession, Step.applyChange "a.lua" [120] (some 1)]) 1 "a.lua" 0 [9]
  have h'' := C4_propose_decision
    (run [Step.addSession, Step.applyChange "a.lua" [120] (some 1)]) 1 "a.lua" 1 [9]
  exact ⟨by decide, h.1 (by decide), by decide, by decide, h'.2.1 (by decide) (by decide),
    by decide, h''.2.2 (by decide) (by decide)⟩

/-- C3 witness: a concrete two-call run polled at `since = 1`, then
extended by one more call and polled at the previous head. -/
theorem C3_changes_since_witness :
    (1 ≤ (run [Step.applyChange "a.lua" [120] none,
               Step.applyChange "b.lua" [121] none]).global_seq) ∧
    (((run ([Step.applyChange "a.lua" [120] none, Step.applyChange "b.lua" [121] none] ++
        [Step.applyChange "a.lua" [122] none])).changes_since 1).1 =
      ((run [Step.applyChange "a.lua" [120] none,
             Step.applyChange "b.lua" [121] none]).changes_since 1).1 ++
        ((run ([Step.applyChange "a.lua" [120] none,
                Step.applyChange "b.lua" [121] none] ++
               [Step.applyChange "a.lua" [122] none])).changes_since
          (run [Step.applyChange "a.lua" [120] none,
                Step.applyChange "b.lua" [121] none]).global_seq).1) := by
  refine ⟨by decide, ?_⟩
  exact (C3_changes_since_suffix
    [Step.applyChange "a.lua" [120] none, Step.applyChange "b.lua" [121] none]
    [Step.applyChange "a.lua" [122] none] 1 (by decide)).2.2

/-- C5 counterexample: `.DS_Store` (and likewise `Thumbs.db`) is in the
snapshot walker's ignore list but not in the watcher's `WATCH_IGNORE`, so
the watcher does not skip the same basenames as the snapshot walker. -/
theorem C5_counterexample :
    watchSkips ".DS_Store" = false ∧ snapshotSkips ".DS_Store" = true ∧
    watchSkips "Thumbs.db" = false ∧ snapshotSkips "Thumbs.db" = true ∧
    ¬ (∀ name : String, watchSkips name = snapshotSkips name) := by
  refine ⟨by decide, by decide, by decide, by decide, fun h => ?_⟩
  exact absurd (h ".DS_Store") (by decide)

/-- C5 amended: the watcher skips exactly the basenames `.git`,
`.vasc-collab-backup` and `node_modules`, two fewer than the snapshot
walker, which additionally skips `.DS_Store` and `Thumbs.db`; neither
skips any other basename. -/
theorem C5_watch_ignore_amended (name : String) :
    (watchSkips name = true ↔
      (name = ".git" ∨ name = ".vasc-collab-backup" ∨ name = "node_modules")) ∧
    (snapshotSkips name = true ↔
      (name = ".git" ∨ name = ".vasc-collab-backup" ∨ name = "node_modules" ∨
       name = ".DS_Store" ∨ name = "Thumbs.db")) := by
  constructor <;>
    simp [watchSkips, snapshotSkips, WATCH_IGNORE, IGNORE_PATTERNS, List.contains]

/-- C6: when the freshly computed fingerprint of a scanned file equals the
hash stored for that path, the watcher's scan step leaves the
authoritative state completely unchanged — `apply_change` is not reached,
no record is appended, and `global_seq` does not advance. -/
theorem C6_watcher_echo_suppression (s : CollabState) (rel : String)
    (content : List Nat) (fs : FileState) (hget : getFile s.files rel = some fs)
    (hhash : fs.hash = hash_content content) :
    watcherIngest s rel content = s := by
  unfold watcherIngest
  rw [hget]
  simp [hhash]

/-- C6 witness: rescanning `a.lua` with the very content the state already
holds leaves the state untouched. -/
theorem C6_watcher_witness :
    (getFile (run [Step.applyChange "a.lua" [120] none]).files "a.lua" =
      some { rev := 1, hash := hash_content [120], content := [120] }) ∧
    (({ rev := 1, hash := hash_content [120], content := [120] } : FileState).hash =
      hash_content [120]) ∧
    (watcherIngest (run [Step.applyChange "a.lua" [120] none]) "a.lua" [120] =
      run [Step.applyChange "a.lua" [120] none]) :=
  ⟨rfl, rfl, C6_watcher_echo_suppression (run [Step.applyChange "a.lua" [120] none])
    "a.lua" [120] { rev := 1, hash := hash_content [120], content := [120] } rfl rfl⟩

/-- C7: `hash_content` is deterministic — equal byte strings hash equal —
and its output is always a string of exactly 16 lowercase hexadecimal
digits, the rendering of the 64-bit FNV-1a-variant digest of the byte
sequence. -/
theorem C7_hash_deterministic_hex (x y : List Nat) (hxy : x = y) :
    (hash_content x = hash_content y) ∧
    ((hash_content x).length = 16) ∧
    ((hash_content x).data.all isLowerHexDigit = true) := by
  refine ⟨congrArg hash_content hxy, by simp [hash_content, toHex16], ?_⟩
  rw [List.all_eq_true]
  intro c hc
  have hc' : c ∈ (List.range 16).map
      fun i => hexDigitChar (hashU64 x / 16 ^ (15 - i) % 16) := hc
  obtain ⟨i, _, rfl⟩ := List.mem_map.mp hc'
  have hdig : ∀ k < 16, isLowerHexDigit (hexDigitChar k) = true := by decide
  exact hdig _ (Nat.mod_lt _ (by norm_num))

/-- C7 witness: the theorem applied at the concrete byte string `hi`. -/
theorem C7_hash_witness :
    (([104, 105] : List Nat) = [104, 105]) ∧
    (hash_content [104, 105] = hash_content [104, 105]) ∧
    ((hash_content [104, 105]).length = 16) ∧
    ((hash_content [104, 105]).data.all isLowerHexDigit = true) :=
  ⟨rfl, (C7_hash_deterministic_hex [104, 105] [104, 105] rfl).1,
   (C7_hash_deterministic_hex [104, 105] [104, 105] rfl).2.1,
   (C7_hash_deterministic_hex [104, 105] [104, 105] rfl).2.2⟩

/-- Merge-sorting by path yields a list that is pairwise ordered by path. -/
theorem sortByPath_sorted (l : List FileEntry) :
    (sortByPath l).Pairwise fun a b => a.path ≤ b.path := by
  have h := @List.sorted_mergeSort FileEntry pathLe
    (fun a b c hab hbc => by
      simp only [pathLe, decide_eq_true_eq] at hab hbc ⊢
      exact le_trans hab hbc)
    (fun a b => by
      simp only [pathLe, Bool.or_eq_true, decide_eq_true_eq]
      exact le_total a.path b.path)
    l
  exact h.imp fun hab => by simpa [pathLe] using hab

/-- C8: both manifest producers — the `/manifest` endpoint and
`build_manifest_from_dir` — list their entries sorted lexicographically by
path, and report `head_rev` equal to the producing state's `global_seq`. -/
theorem C8_manifests_sorted (s : CollabState) (tree : List FsEntry) :
    ((manifest s).files.Pairwise fun a b => a.path ≤ b.path) ∧
    ((manifest s).head_rev = s.global_seq) ∧
    ((build_manifest_from_dir tree s).2.files.Pairwise fun a b => a.path ≤ b.path) ∧
    ((build_manifest_from_dir tree s).2.head_rev =
      (build_manifest_from_dir tree s).1.global_seq) := by
  refine ⟨sortByPath_sorted _, rfl, ?_, rfl⟩
  show (sortByPath (walkDir "" tree s []).2).Pairwise _
  exact sortByPath_sorted _

/-- C9: when the host is configured without a token, `/auth` never answers
401: any request at protocol version 1 — whatever token it carries,
including an arbitrary non-empty one — is accepted with a fresh session
id. -/
theorem C9_no_token_never_401 (s : CollabState) (req : AuthRequest) :
    ((auth none s req).2.1 ≠ 401) ∧
    (req.protocol_version = 1 →
      auth none s req =
        (s.add_session.1, 200, { session_id := s.next_session_id, ok := true })) := by
  have hca : check_auth req.token none = true := by
    cases req.token <;> rfl
  constructor
  · by_cases h : req.protocol_version = PROTOCOL_VERSION
    · simp [auth, h, hca]
    · simp [auth, h]
  · intro h1
    simp [auth, h1, PROTOCOL_VERSION, hca, CollabState.add_session]

/-- C9 witness: a fresh host without a token accepts a version-1 request
carrying an arbitrary wrong token and hands out session id 1. -/
theorem C9_no_token_witness :
    (({ token := some "wrong-token", protocol_version := 1 } : AuthRequest).protocol_version
      = 1) ∧
    (auth none CollabState.new { token := some "wrong-token", protocol_version := 1 } =
      (CollabState.new.add_session.1, 200,
       { session_id := CollabState.new.next_session_id, ok := true })) :=
  ⟨rfl, (C9_no_token_never_401 CollabState.new
    { token := some "wrong-token", protocol_version := 1 }).2 rfl⟩

/-- C10: `/propose` validates nothing about the path: any string —
including ones with `..` segments, a leading slash, or backslashes — is,
for a registered session at the matching base revision, accepted verbatim,
committed to the files map and the change log under that exact string, and
joined to the project directory to compute the on-disk destination, which
can therefore name a location outside the project root. -/
theorem C10_propose_no_path_validation (s : CollabState) (session_id : Nat)
    (path : String) (content : List Nat) (projectDir : String)
    (hsess : session_id ∈ s.sessions) :
    ((propose s session_id path (fileRev s path) content).2.1 = 200) ∧
    ((propose s session_id path (fileRev s path) content).2.2.accepted = true) ∧
    (getFile (propose s session_id path (fileRev s path) content).1.files path =
      some { rev := fileRev s path + 1, hash := hash_content content,
             content := content }) ∧
    (((propose s session_id path (fileRev s path) content).1.change_log.getLast?).map
        (·.entry.path) = some path) ∧
    (path.data.head? = some '/' → proposeDest projectDir path = path) ∧
    (path.data.head? ≠ some '/' →
      proposeDest projectDir path = projectDir ++ "/" ++ path) ∧
    (proposeDest "/home/user/project" "/etc/passwd" = "/etc/passwd") ∧
    (proposeDest "/home/user/project" "../escape.lua" =
      "/home/user/project/../escape.lua") := by
  have hred : propose s session_id path (fileRev s path) content =
      ((s.apply_change path content (some session_id)).1, 200,
       { path := path, accepted := true,
         new_rev := some (s.apply_change path content (some session_id)).2.rev,
         conflict_rev := none, conflict_hash := none }) := by
    simp [propose, hsess]
  refine ⟨?_, ?_, ?_, ?_, ?_, ?_, by decide, by decide⟩
  · rw [hred]
  · rw [hred]
  · rw [hred]
    dsimp only
    rw [apply_change_fst]
    dsimp only
    rw [getFile_setFile, if_pos rfl]
  · rw [hred]
    dsimp only
    rw [apply_change_fst]
    dsimp only
    rw [List.getLast?_concat]
    rfl
  · intro h
    simp [proposeDest, h]
  · intro h
    simp [proposeDest, h]

/-- C10 witness: a registered session commits the traversal path
`../escape.lua` verbatim at base revision 0. -/
theorem C10_propose_witness :
    ((1 : Nat) ∈ (run [Step.addSession]).sessions) ∧
    ((propose (run [Step.addSession]) 1 "../escape.lua"
        (fileRev (run [Step.addSession]) "../escape.lua") [104]).2.1 = 200) ∧
    (getFile (propose (run [Step.addSession]) 1 "../escape.lua"
        (fileRev (run [Step.addSession]) "../escape.lua") [104]).1.files "../escape.lua" =
      some { rev := fileRev (run [Step.addSession]) "../escape.lua" + 1,
             hash := hash_content [104], content := [104] }) ∧
    (proposeDest "/home/user/project" "../escape.lua" =
      "/home/user/project/../escape.lua") := by
  have h := C10_propose_no_path_validation (run [Step.addSession]) 1 "../escape.lua"
    [104] "/home/user/project" (by decide)
  exact ⟨by decide, h.1, h.2.2.1, h.2.2.2.2.2.2.2⟩

end Vasc
